import Mathlib

/-!
Verification of the Sci-Hub PDF downloader browser extension.

The development shallowly embeds the two pipelines of the extension:

* the content script (`content.js`, here namespace `Content`): DOI
  extraction from a loaded page, trailing-punctuation cleanup, the
  ignore-domain gate and the button-injection driver `init`;
* the background service worker.  The repository ships two variants of
  it: a DOM-parser variant (`background.js`, here namespace
  `BackgroundDOM`) and a regex-based Manifest-V3 variant (here namespace
  `BackgroundSW`).  The mirror fallback loop `handleDownload` is
  identical in both variants and is embedded once in namespace
  `Background`, parameterised over the effectful outcome of each mirror
  attempt.

JavaScript regular-expression matching is embedded by specialised
scanners over `List Char` that realise the exact first-match semantics
of the concrete patterns appearing in the source (including greedy
matching with backtracking, word boundaries, and case-insensitive
flags where the source uses them).
-/

namespace Content

/-- Substring test: JavaScript `String.prototype.startsWith` over char lists
(case sensitive). -/
def startsL : List Char → List Char → Bool
  | _, [] => true
  | [], _ :: _ => false
  | c :: cs, p :: ps => (c == p) && startsL cs ps

/-- Case-insensitive variant of `startsL` (for regexes carrying the `i` flag). -/
def ciStarts : List Char → List Char → Bool
  | _, [] => true
  | [], _ :: _ => false
  | c :: cs, p :: ps => (c.toLower == p.toLower) && ciStarts cs ps

/-- JavaScript `String.prototype.includes` on char lists. -/
def containsSeq (pat : List Char) : List Char → Bool
  | [] => pat.isEmpty
  | c :: cs => startsL (c :: cs) pat || containsSeq pat cs

/-- JavaScript `String.prototype.includes`. -/
def jsIncludes (s sub : String) : Bool := containsSeq sub.data s.data

/-- The double-quote character. -/
def dquote : Char := Char.ofNat 34

/-- The single-quote character. -/
def squote : Char := Char.ofNat 39

/-- Is the character one of the two JavaScript string quotes? -/
def isQuote (c : Char) : Bool := c == dquote || c == squote

/-- Word character in the sense of the regex class `\w` ( `[A-Za-z0-9_]` ). -/
def isWordChar (c : Char) : Bool := c.isAlphanum || c == '_'

/-- A character admissible in the DOI suffix by the content-script regex
`DOI_REGEX = /\b(10\.\d{4,9}\/[^\s"'<>&]+)\b/`: anything but whitespace,
quotes, angle brackets and the ampersand. -/
def isDoiTokenChar (c : Char) : Bool :=
  !(c.isWhitespace || c == dquote || c == squote || c == '<' || c == '>' || c == '&')

/-- Truncate a run of `DOI_REGEX` token characters at its last word
character.  This realises the trailing `\b` of `DOI_REGEX`: the greedy
token run backtracks until the match ends on a word boundary, i.e. the
match keeps exactly the prefix of the run up to and including its last
`\w` character. -/
def truncAtLastWord (l : List Char) : List Char :=
  (l.reverse.dropWhile (fun c => !isWordChar c)).reverse

/-- Attempt to match `DOI_REGEX` (without the leading `\b`, which the
scanner `doiScanGo` checks) at the head of the list, returning the
captured group: literal `10.`, then a maximal run of 4 to 9 digits,
then `/`, then a nonempty token run ending on a word boundary. -/
def doiMatchHere : List Char → Option (List Char)
  | '1' :: '0' :: '.' :: rest =>
    let ds := rest.takeWhile Char.isDigit
    let r2 := rest.dropWhile Char.isDigit
    if 4 ≤ ds.length ∧ ds.length ≤ 9 then
      match r2 with
      | '/' :: r3 =>
        let tok := truncAtLastWord (r3.takeWhile isDoiTokenChar)
        if tok.isEmpty then none
        else some ('1' :: '0' :: '.' :: (ds ++ '/' :: tok))
      | _ => none
    else none
  | _ => none

/-- First-match scan of `DOI_REGEX` over a string: try every position
left to right; the leading `\b` requires the previous character (if
any) to be a non-word character, which the accumulator tracks. -/
def doiScanGo : Bool → List Char → Option (List Char)
  | _, [] => none
  | prevWord, c :: cs =>
    match (if prevWord then none else doiMatchHere (c :: cs)) with
    | some r => some r
    | none => doiScanGo (isWordChar c) cs

/-- `s.match(DOI_REGEX)`, returning the captured DOI of the first match. -/
def doiFirstMatchStr (s : String) : Option String :=
  (doiScanGo false s.data).map String.mk

/-- The DOI syntax pattern of the specification, `10.<4-9 digits>/<token>`
with a nonempty token: the shape every Identifier is claimed to have. -/
def matchesDOIPattern (s : String) : Bool :=
  match s.data with
  | '1' :: '0' :: '.' :: rest =>
    let ds := rest.takeWhile Char.isDigit
    let r2 := rest.dropWhile Char.isDigit
    (decide (4 ≤ ds.length ∧ ds.length ≤ 9)) &&
      (match r2 with
       | '/' :: tok => !tok.isEmpty
       | _ => false)
  | _ => false

/-- First hit of an option-valued function over a list (the early-return
`for` loops of the source). -/
def firstHit (f : α → Option β) : List α → Option β
  | [] => none
  | a :: l =>
    match f a with
    | some b => some b
    | none => firstHit f l

/-- Strip a leading `doi:` or DOI-resolver URL:
`content.replace(/^(doi:|https?:\/\/doi\.org\/)/, "")`. -/
def stripLeadingDoi (s : String) : String :=
  if startsL s.data "doi:".data then String.mk (s.data.drop 4)
  else if startsL s.data "https://doi.org/".data then String.mk (s.data.drop 16)
  else if startsL s.data "http://doi.org/".data then String.mk (s.data.drop 15)
  else s

/-- A `<meta>` element, as far as the tier-1 selectors inspect it. -/
structure MetaTag where
  name : Option String
  property : Option String
  scheme : Option String
  content : Option String
deriving DecidableEq, Repr

/-- The eleven tier-1 selectors of `detectDOI`, in source order, as
predicates on a `<meta>` element. -/
def metaSelectors : List (MetaTag → Bool) :=
  [ fun t => t.name == some "citation_doi"
  , fun t => t.name == some "dc.identifier" && t.scheme == some "doi"
  , fun t => t.name == some "dc.identifier"
  , fun t => t.name == some "DC.identifier"
  , fun t => t.name == some "DC.Identifier"
  , fun t => t.name == some "doi"
  , fun t => t.name == some "DOI"
  , fun t => t.property == some "citation_doi"
  , fun t => t.name == some "prism.doi"
  , fun t => t.name == some "bepress_citation_doi"
  , fun t => t.name == some "eprints.id_number" ]

/-- `document.querySelector(sel)` over the page's meta elements:
first element matching the selector, in document order. -/
def querySelectorMeta (sel : MetaTag → Bool) (metas : List MetaTag) : Option MetaTag :=
  metas.find? sel

/-- Extraction tier 1: for each selector in order, take the first
matching element, strip a `doi:`/resolver prefix from its `content`
attribute and keep the first `DOI_REGEX` match; a selector whose
element yields no match falls through to the next selector. -/
def metaTier (metas : List MetaTag) : Option String :=
  firstHit
    (fun sel =>
      match querySelectorMeta sel metas with
      | some el => doiFirstMatchStr (stripLeadingDoi (el.content.getD ""))
      | none => none)
    metaSelectors

/-- Match `10\.\d{4,9}\/TOKCLASS+` at the head of the list, where the token
class is given by `tokChar`; shared by the URL and link matchers (which,
unlike `DOI_REGEX`, carry no word boundaries). -/
def doiCoreHere (tokChar : Char → Bool) (l : List Char) : Option (List Char) :=
  match l with
  | '1' :: '0' :: '.' :: rest =>
    let ds := rest.takeWhile Char.isDigit
    let r2 := rest.dropWhile Char.isDigit
    if 4 ≤ ds.length ∧ ds.length ≤ 9 then
      match r2 with
      | '/' :: r3 =>
        let tok := r3.takeWhile tokChar
        if tok.isEmpty then none
        else some ('1' :: '0' :: '.' :: (ds ++ '/' :: tok))
      | _ => none
    else none
  | _ => none

/-- Token class `[^\s?#]` of the URL patterns. -/
def urlTokChar (c : Char) : Bool := !(c.isWhitespace || c == '?' || c == '#')

/-- Match `https?:\/\/(?:dx\.)?doi\.org\/(10\.\d{4,9}\/[^\s?#]+)` at the
head of the list. -/
def urlDoiOrgHere (l : List Char) : Option (List Char) :=
  let afterProto : Option (List Char) :=
    if startsL l "https://".data then some (l.drop 8)
    else if startsL l "http://".data then some (l.drop 7)
    else none
  match afterProto with
  | some r1 =>
    let r2 := if startsL r1 "dx.".data then r1.drop 3 else r1
    if startsL r2 "doi.org/".data then doiCoreHere urlTokChar (r2.drop 8)
    else none
  | none => none

/-- Scan every position for a head-matcher (plain first-match regex scan). -/
def scanPos (f : List Char → Option α) : List Char → Option α
  | [] => none
  | c :: cs =>
    match f (c :: cs) with
    | some r => some r
    | none => scanPos f cs

/-- `url.match(/https?:\/\/(?:dx\.)?doi\.org\/(10\.\d{4,9}\/[^\s?#]+)/)`. -/
def urlDoiOrgMatch (url : String) : Option String :=
  (scanPos urlDoiOrgHere url.data).map String.mk

/-- Match `\/(?:doi|article|abs|full|pdf)\/?(10\.\d{4,9}\/[^\s?#]+)` at the
head of the list: a path segment keyword, an optional slash, then the DOI. -/
def urlPathDoiHere (l : List Char) : Option (List Char) :=
  match l with
  | '/' :: r1 =>
    let tryKw : List Char → Option (List Char) := fun kw =>
      if startsL r1 kw then
        let r2 := r1.drop kw.length
        match (if startsL r2 "/".data then doiCoreHere urlTokChar (r2.drop 1) else none) with
        | some r => some r
        | none => doiCoreHere urlTokChar r2
      else none
    firstHit tryKw ["doi".data, "article".data, "abs".data, "full".data, "pdf".data]
  | _ => none

/-- `url.match(/\/(?:doi|article|abs|full|pdf)\/?(10\.\d{4,9}\/[^\s?#]+)/)`. -/
def urlPathDoiMatch (url : String) : Option String :=
  (scanPos urlPathDoiHere url.data).map String.mk

/-- Extraction tier 2: DOI patterns in the page's own URL. -/
def urlTier (href : String) : Option String :=
  match urlDoiOrgMatch href with
  | some d => some d
  | none => urlPathDoiMatch href

/-- JSON values, for the JSON-LD structured data blocks. -/
inductive JsonVal where
  | null : JsonVal
  | bool (b : Bool) : JsonVal
  | num (n : Int) : JsonVal
  | str (s : String) : JsonVal
  | arr (xs : List JsonVal) : JsonVal
  | obj (kvs : List (String × JsonVal)) : JsonVal
deriving Repr

/-- The fixed LD+JSON key names checked by `extractDOIFromLD`. -/
def ldKeys : List String := ["doi", "DOI", "@id", "identifier", "sameAs"]

/-- `data[key]` on a parsed JSON object: with duplicate keys,
`JSON.parse` keeps the last binding. -/
def jsLookup (kvs : List (String × JsonVal)) (k : String) : Option JsonVal :=
  (kvs.reverse.find? (fun p => p.1 == k)).map (fun p => p.2)

/-- The non-recursive object case of `extractDOIFromLD`: check the fixed
keys in order; a string value is prefix-stripped and matched; an array
value has its string items prefix-stripped and matched in order. -/
def ldObjScan (kvs : List (String × JsonVal)) : Option String :=
  firstHit
    (fun k =>
      match jsLookup kvs k with
      | some (JsonVal.str s) => doiFirstMatchStr (stripLeadingDoi s)
      | some (JsonVal.arr items) =>
        firstHit
          (fun it =>
            match it with
            | JsonVal.str s => doiFirstMatchStr (stripLeadingDoi s)
            | _ => none)
          items
      | _ => none)
    ldKeys

mutual

/-- `extractDOIFromLD`: walk a JSON-LD value; arrays are searched
recursively element by element, objects are checked via the fixed key
list (without recursing into their values), and everything else —
including the falsy values the source rejects up front — yields null. -/
def extractDOIFromLD : JsonVal → Option String
  | JsonVal.arr xs => extractDOIFromLDList xs
  | JsonVal.obj kvs => ldObjScan kvs
  | _ => none

/-- The `for (const item of data)` loop of `extractDOIFromLD` on arrays. -/
def extractDOIFromLDList : List JsonVal → Option String
  | [] => none
  | x :: xs =>
    match extractDOIFromLD x with
    | some r => some r
    | none => extractDOIFromLDList xs

end

/-- Extraction tier 3: parse each `application/ld+json` script (a parse
failure, modelled as `none`, is skipped) and walk it. -/
def ldTier (lds : List (Option JsonVal)) : Option String :=
  firstHit
    (fun o =>
      match o with
      | some v => extractDOIFromLD v
      | none => none)
    lds

/-- Token class `[^\s?#"']` of the link-tier pattern. -/
def linkTokChar (c : Char) : Bool :=
  !(c.isWhitespace || c == '?' || c == '#' || c == dquote || c == squote)

/-- Match `(?:dx\.)?doi\.org\/(10\.\d{4,9}\/[^\s?#"']+)` at the head. -/
def linkDoiHere (l : List Char) : Option (List Char) :=
  let r1 := if startsL l "dx.".data then l.drop 3 else l
  if startsL r1 "doi.org/".data then doiCoreHere linkTokChar (r1.drop 8)
  else none

/-- Extraction tier 4: anchors whose `href` contains a resolver-URL
substring (the selector filter `a[href*="doi.org/10."]`; the
`dx.doi.org` alternative is subsumed by it), matched against the
resolver pattern. -/
def linkTier (hrefs : List String) : Option String :=
  firstHit
    (fun href =>
      if jsIncludes href "doi.org/10." then
        (scanPos linkDoiHere href.data).map String.mk
      else none)
    hrefs

/-- Token class `[^"']` of the inline-script pattern. -/
def nonQuoteChar (c : Char) : Bool := !isQuote c

/-- Match `["']?doi["']?\s*[:=]\s*["'](10\.\d{4,9}\/[^"']+)["']` (with the
`i` flag) at the head of the list. -/
def scriptDoiHere (l : List Char) : Option (List Char) :=
  let l1 := match l with
    | c :: cs => if isQuote c then cs else l
    | [] => l
  if ciStarts l1 "doi".data then
    let l2 := l1.drop 3
    let l3 := match l2 with
      | c :: cs => if isQuote c then cs else l2
      | [] => l2
    let l4 := l3.dropWhile Char.isWhitespace
    match l4 with
    | c :: l5 =>
      if c == ':' || c == '=' then
        let l6 := l5.dropWhile Char.isWhitespace
        match l6 with
        | q :: l7 =>
          if isQuote q then
            match doiCoreHere nonQuoteChar l7 with
            | some r =>
              -- the match consumes exactly `r.length` characters of `l7`
              -- (the group is the whole consumed text); the maximal
              -- `[^"']+` run is followed by a quote iff anything follows,
              -- so the closing `["']` matches iff the remainder is nonempty
              if (l7.drop r.length).isEmpty then none else some r
            | none => none
          else none
        | [] => none
      else none
    | _ => none
  else none

/-- Extraction tier 5: inline scripts matched against the loose
`doi: "10.xxxx/..."` key-value pattern. -/
def scriptTier (scripts : List String) : Option String :=
  firstHit (fun txt => (scanPos scriptDoiHere txt.data).map String.mk) scripts

/-- Extraction tier 6: visible text of the allow-listed containers,
matched against `DOI_REGEX`. -/
def containerTier (texts : List String) : Option String :=
  firstHit doiFirstMatchStr texts

/-- A loaded page, as far as `detectDOI`, `shouldIgnorePage` and `init`
inspect it: hostname, address, meta elements, parsed JSON-LD blocks
(`none` = parse error), anchor `href`s, inline script texts, and the
text content of the allow-listed metadata containers. -/
structure Page where
  hostname : String
  href : String
  metas : List MetaTag
  lds : List (Option JsonVal)
  links : List String
  inlineScripts : List String
  containerTexts : List String

/-- `detectDOI`: the six extraction tiers in strict priority order,
short-circuiting at the first hit. -/
def detectDOI (p : Page) : Option String :=
  match metaTier p.metas with
  | some d => some d
  | none =>
    match urlTier p.href with
    | some d => some d
    | none =>
      match ldTier p.lds with
      | some d => some d
      | none =>
        match linkTier p.links with
        | some d => some d
        | none =>
          match scriptTier p.inlineScripts with
          | some d => some d
          | none => containerTier p.containerTexts

/-- Trailing punctuation stripped by `cleanDOI`:
`doi.replace(/[.,;)\]]+$/, "")`. -/
def isTrailPunct (c : Char) : Bool :=
  c == '.' || c == ',' || c == ';' || c == ')' || c == ']'

/-- `cleanDOI`: strip the trailing run of sentence/bracket punctuation. -/
def cleanDOI (doi : String) : String :=
  String.mk ((doi.data.reverse.dropWhile isTrailPunct).reverse)

/-- The ignored-domain list of the content script. -/
def IGNORE_DOMAINS : List String :=
  [ "google.com", "bing.com", "duckduckgo.com", "facebook.com", "twitter.com"
  , "x.com", "reddit.com", "youtube.com", "github.com", "sci-hub." ]

/-- `shouldIgnorePage`: does the hostname contain an ignored domain? -/
def shouldIgnorePage (hostname : String) : Bool :=
  IGNORE_DOMAINS.any (fun d => jsIncludes hostname d)

/-- `init`: the driver.  Returns the DOI attached to the injected button,
or `none` when no button is injected (ignored domain, no DOI found, or
an empty cleaned DOI, which is falsy in JavaScript). -/
def init (p : Page) : Option String :=
  if shouldIgnorePage p.hostname then none
  else
    match detectDOI p with
    | none => none
    | some doi =>
      let cleaned := cleanDOI doi
      if cleaned = "" then none else some cleaned

end Content

namespace Background

open Content (startsL ciStarts containsSeq jsIncludes isQuote dquote squote)

/-- The static Sci-Hub mirror list, in priority order (identical in both
background variants). -/
def SCIHUB_MIRRORS : List String :=
  [ "https://sci-hub.vg", "https://sci-hub.al", "https://sci-hub.mk", "https://sci-hub.ru" ]

/-- Outcome of one `findPDFUrl(mirror, doi)` call: a thrown error, no PDF
URL found (`null`), or a resolved URL. -/
inductive FindResult where
  | thrown (msg : String) : FindResult
  | noUrl : FindResult
  | found (url : String) : FindResult
deriving DecidableEq, Repr

/-- Outcome of one `downloadFromUrl(pdfUrl, doi)` call: a thrown error
(validation or platform failure) or a completed download. -/
inductive DlResult where
  | thrown (msg : String) : DlResult
  | ok (downloadId : Nat) : DlResult
deriving DecidableEq, Repr

/-- The response sent back to the content script:
`{success: true}` or `{success: false, error}`. -/
structure Outcome where
  success : Bool
  error : Option String
deriving DecidableEq, Repr

/-- JavaScript `lastError || "All mirrors failed"`: the empty string is
falsy, so it also falls back to the default. -/
def jsOrDefault : Option String → String
  | some s => if s = "" then "All mirrors failed" else s
  | none => "All mirrors failed"

/-- The mirror loop of `handleDownload`, instrumented with the list of
mirrors to which a lookup request was issued.  `find` gives the outcome
of `findPDFUrl` on each mirror and `dl` the outcome of
`downloadFromUrl` on each resolved URL (the DOI is fixed for the whole
resolution).  Any caught error is recorded in `lastError` and the loop
continues with the next mirror. -/
def handleLoop (find : String → FindResult) (dl : String → DlResult) :
    List String → Option String → Outcome × List String
  | [], lastError => (⟨false, some (jsOrDefault lastError)⟩, [])
  | m :: ms, _lastError =>
    match find m with
    | FindResult.thrown msg =>
      let r := handleLoop find dl ms (some msg)
      (r.1, m :: r.2)
    | FindResult.noUrl =>
      let r := handleLoop find dl ms (some "Could not find PDF URL")
      (r.1, m :: r.2)
    | FindResult.found url =>
      match dl url with
      | DlResult.thrown msg =>
        let r := handleLoop find dl ms (some msg)
        (r.1, m :: r.2)
      | DlResult.ok _ => (⟨true, none⟩, [m])

/-- `handleDownload(doi)`: run the mirror loop over the static list. -/
def handleDownload (find : String → FindResult) (dl : String → DlResult) : Outcome :=
  (handleLoop find dl SCIHUB_MIRRORS none).1

/-- The mirrors to which `handleDownload` issues a lookup request, in
request order. -/
def mirrorsTried (find : String → FindResult) (dl : String → DlResult) : List String :=
  (handleLoop find dl SCIHUB_MIRRORS none).2

/-- The error one mirror's attempt contributes (`none` when the attempt
succeeds and the loop returns). -/
def attemptError (find : String → FindResult) (dl : String → DlResult) (m : String) :
    Option String :=
  match find m with
  | FindResult.thrown msg => some msg
  | FindResult.noUrl => some "Could not find PDF URL"
  | FindResult.found url =>
    match dl url with
    | DlResult.thrown msg => some msg
    | DlResult.ok _ => none

/-- A character kept by the filename sanitizer: `[a-zA-Z0-9._-]`. -/
def allowedFileChar (c : Char) : Bool :=
  c.isAlphanum || c == '.' || c == '_' || c == '-'

/-- The filename transform of both variants (without the extension):
`doi.replace(/\//g, "_").replace(/[^a-zA-Z0-9._-]/g, "")`. -/
def sanitizeDOI (doi : String) : String :=
  String.mk (((doi.data.map (fun c => if c = '/' then '_' else c)).filter allowedFileChar))

/-- The generated filename: sanitized DOI plus the `.pdf` extension. -/
def doiFilename (doi : String) : String := sanitizeDOI doi ++ ".pdf"

/-- Result of a `downloadFromUrl` call, distinguishing a failure thrown
before persistence from an invocation of the platform persistence call
`chrome.downloads.download` (with the derived filename). -/
inductive SaveOutcome where
  | failed (msg : String) : SaveOutcome
  | persisted (filename : String) : SaveOutcome
deriving DecidableEq, Repr

/-- JavaScript `String.prototype.trim` on char lists. -/
def trimL (l : List Char) : List Char :=
  ((l.dropWhile Char.isWhitespace).reverse.dropWhile Char.isWhitespace).reverse

/-- A JavaScript line terminator (`\n`, `\r`, U+2028, U+2029), which the
dot of `/#.*$/` cannot cross. -/
def isLineTerm (c : Char) : Bool :=
  c == '\n' || c == '\r' || c == Char.ofNat 0x2028 || c == Char.ofNat 0x2029

/-- `url.replace(/#.*$/, "")`: drop everything from the first `#` whose
suffix contains no line terminator (the dot cannot cross one and the
anchor requires the end of input). -/
def stripFragment : List Char → List Char
  | [] => []
  | c :: cs => if c == '#' && !(cs.any isLineTerm) then [] else c :: stripFragment cs

/-- `url.replace(/&amp;/g, "&")`: left-to-right non-overlapping global
replacement of the HTML ampersand entity. -/
def decodeAmp : List Char → List Char
  | '&' :: 'a' :: 'm' :: 'p' :: ';' :: rest => '&' :: decodeAmp rest
  | c :: rest => c :: decodeAmp rest
  | [] => []

end Background

namespace BackgroundDOM

open Content (jsIncludes startsL)
open Background (SaveOutcome doiFilename trimL stripFragment)

/-- `downloadFromUrl` of the DOM-parser variant (`background.js`): fetch
the resource, require an `application/pdf` content type, read the first
five bytes of the payload and require the `%PDF-` signature, then invoke
the platform download with the derived filename.  `contentType` is the
response's `Content-Type` header (`""` when absent) and `payload` the
fetched blob. -/
def downloadFromUrl (contentType payload doi : String) : SaveOutcome :=
  if !(jsIncludes contentType "application/pdf") then
    SaveOutcome.failed ("Response is not a PDF (got " ++ contentType ++ ")")
  else if !(startsL (payload.data.take 5) "%PDF-".data) then
    SaveOutcome.failed "Invalid PDF content"
  else
    SaveOutcome.persisted (doiFilename doi)

/-- `normalizeUrl` of the DOM-parser variant: trim, strip a URL fragment,
then resolve protocol-relative, root-relative and absolute references
(no HTML-entity decoding in this variant). -/
def normalizeUrl (url mirror : String) : Option String :=
  if url = "" then none
  else
    let u := String.mk (stripFragment (trimL url.data))
    if startsL u.data "//".data then some ("https:" ++ u)
    else if startsL u.data "/".data then some (mirror ++ u)
    else if startsL u.data "http".data then some u
    else some (mirror ++ "/" ++ u)

end BackgroundDOM

namespace BackgroundSW

open Content (startsL ciStarts containsSeq jsIncludes isQuote dquote squote scanPos firstHit)
open Background (SaveOutcome doiFilename trimL stripFragment decodeAmp)

/-- `normalizeUrl` of the regex variant: trim, decode `&amp;`, strip a URL
fragment, then resolve protocol-relative, root-relative and absolute
references against the mirror base. -/
def normalizeUrl (url mirror : String) : Option String :=
  if url = "" then none
  else
    let u := String.mk (stripFragment (decodeAmp (trimL url.data)))
    if startsL u.data "//".data then some ("https:" ++ u)
    else if startsL u.data "/".data then some (mirror ++ u)
    else if startsL u.data "http".data then some u
    else some (mirror ++ "/" ++ u)

/-- Parse `\s*=\s*["']([^"']+)["']` at the head: the attribute value and
the remainder after the closing quote. -/
def parseAttrValue (l : List Char) : Option (List Char × List Char) :=
  let l1 := l.dropWhile Char.isWhitespace
  match l1 with
  | '=' :: l2 =>
    let l3 := l2.dropWhile Char.isWhitespace
    match l3 with
    | q :: l4 =>
      if isQuote q then
        let content := l4.takeWhile (fun c => !isQuote c)
        let rest := l4.dropWhile (fun c => !isQuote c)
        match rest with
        | _ :: rest2 => if content.isEmpty then none else some (content, rest2)
        | [] => none
      else none
    | [] => none
  | _ => none

/-- Realise the backtracking of `[^>]+ATTR\s*=\s*["']...["']` after a tag
opener: the greedy `[^>]+` is retried from the longest split down, so the
attribute-name occurrence is sought at offsets `n, n-1, …, 1` into `l`.
Returns the attribute value and the remainder after its closing quote. -/
def attrScanDesc (l attrN : List Char) : Nat → Option (List Char × List Char)
  | 0 => none
  | k + 1 =>
    if ciStarts (l.drop (k + 1)) attrN then
      match parseAttrValue ((l.drop (k + 1)).drop attrN.length) with
      | some r => some r
      | none => attrScanDesc l attrN k
    else attrScanDesc l attrN k

/-- First match of `<TAG[^>]+ATTR\s*=\s*["']([^"']+)["']` (case
insensitive): scan for the tag opener, then search the attribute within
the run of non-`>` characters. -/
def tagAttrScan (tagN attrN : List Char) : List Char → Option (List Char)
  | [] => none
  | c :: cs =>
    if ciStarts (c :: cs) tagN then
      match
        (let after := (c :: cs).drop tagN.length
         let run := after.takeWhile (fun x => x ≠ '>')
         attrScanDesc after attrN run.length) with
      | some r => some r.1
      | none => tagAttrScan tagN attrN cs
    else tagAttrScan tagN attrN cs

/-- The iframe tier: `html.match(/<iframe[^>]+src\s*=\s*["']([^"']+)["']/i)`. -/
def iframeSrc (html : String) : Option String :=
  (tagAttrScan "<iframe".data "src".data html.data).map String.mk

/-- Parse `\s*=\s*["']application\/pdf["']` (case-insensitive literal) at
the head, returning the remainder after the closing quote. -/
def parseTypePdf (l : List Char) : Option (List Char) :=
  let l1 := l.dropWhile Char.isWhitespace
  match l1 with
  | '=' :: l2 =>
    let l3 := l2.dropWhile Char.isWhitespace
    match l3 with
    | q :: l4 =>
      if isQuote q && ciStarts l4 "application/pdf".data then
        match l4.drop 15 with
        | q2 :: rest => if isQuote q2 then some rest else none
        | [] => none
      else none
    | [] => none
  | _ => none

/-- Backtracking search for `type\s*=\s*["']application\/pdf["']` followed
by `[^>]+src\s*=\s*["']([^"']+)["']`, offsets descending. -/
def embedTypeDesc (after : List Char) : Nat → Option (List Char)
  | 0 => none
  | k + 1 =>
    if ciStarts (after.drop (k + 1)) "type".data then
      match parseTypePdf ((after.drop (k + 1)).drop 4) with
      | some rest =>
        match attrScanDesc rest "src".data (rest.takeWhile (fun x => x ≠ '>')).length with
        | some r => some r.1
        | none => embedTypeDesc after k
      | none => embedTypeDesc after k
    else embedTypeDesc after k

/-- The embed tier, type before src:
`/<embed[^>]+type\s*=\s*["']application\/pdf["'][^>]+src\s*=\s*["']([^"']+)["']/i`. -/
def embedPdfScan : List Char → Option (List Char)
  | [] => none
  | c :: cs =>
    if ciStarts (c :: cs) "<embed".data then
      match
        (let after := (c :: cs).drop 6
         embedTypeDesc after (after.takeWhile (fun x => x ≠ '>')).length) with
      | some r => some r
      | none => embedPdfScan cs
    else embedPdfScan cs

/-- `embedPdfScan` on strings. -/
def embedPdfSrc (html : String) : Option String :=
  (embedPdfScan html.data).map String.mk

/-- Is `type\s*=\s*["']application\/pdf["']` reachable after a nonempty
`[^>]+` gap, offsets descending? -/
def typeAfterDesc (l : List Char) : Nat → Bool
  | 0 => false
  | k + 1 =>
    if ciStarts (l.drop (k + 1)) "type".data then
      match parseTypePdf ((l.drop (k + 1)).drop 4) with
      | some _ => true
      | none => typeAfterDesc l k
    else typeAfterDesc l k

/-- Backtracking search for `src\s*=\s*["']([^"']+)["']` followed by
`[^>]+type\s*=\s*["']application\/pdf["']`, offsets descending. -/
def embedSrcTypeDesc (after : List Char) : Nat → Option (List Char)
  | 0 => none
  | k + 1 =>
    if ciStarts (after.drop (k + 1)) "src".data then
      match parseAttrValue ((after.drop (k + 1)).drop 3) with
      | some r =>
        if typeAfterDesc r.2 (r.2.takeWhile (fun x => x ≠ '>')).length then some r.1
        else embedSrcTypeDesc after k
      | none => embedSrcTypeDesc after k
    else embedSrcTypeDesc after k

/-- The embed tier, src before type:
`/<embed[^>]+src\s*=\s*["']([^"']+)["'][^>]+type\s*=\s*["']application\/pdf["']/i`. -/
def embedPdf2Scan : List Char → Option (List Char)
  | [] => none
  | c :: cs =>
    if ciStarts (c :: cs) "<embed".data then
      match
        (let after := (c :: cs).drop 6
         embedSrcTypeDesc after (after.takeWhile (fun x => x ≠ '>')).length) with
      | some r => some r
      | none => embedPdf2Scan cs
    else embedPdf2Scan cs

/-- `embedPdf2Scan` on strings. -/
def embedPdfSrc2 (html : String) : Option String :=
  (embedPdf2Scan html.data).map String.mk

/-- The embed fallback tier: `/<embed[^>]+src\s*=\s*["']([^"']+)["']/i`. -/
def embedAnySrc (html : String) : Option String :=
  (tagAttrScan "<embed".data "src".data html.data).map String.mk

/-- The object tier match: `/<object[^>]+data\s*=\s*["']([^"']+)["']/i`. -/
def objectData (html : String) : Option String :=
  (tagAttrScan "<object".data "data".data html.data).map String.mk

/-- The acceptance condition on an object `data` URL: it must itself look
like a file path. -/
def objLooksPdf (dataUrl : String) : Bool :=
  jsIncludes dataUrl ".pdf" || jsIncludes dataUrl "/pdf/" || jsIncludes dataUrl "/storage/"

/-- Match `location\.href\s*=\s*['"]([^'"]+\.pdf[^'"]*)` at the head of an
onclick value (case sensitive).  The group is the whole maximal non-quote
run, provided `.pdf` occurs in it at index at least 1. -/
def locHrefHere (l : List Char) : Option (List Char) :=
  if startsL l "location.href".data then
    let l1 := (l.drop 13).dropWhile Char.isWhitespace
    match l1 with
    | '=' :: l2 =>
      let l3 := l2.dropWhile Char.isWhitespace
      match l3 with
      | q :: l4 =>
        if isQuote q then
          let run := l4.takeWhile (fun c => !isQuote c)
          if containsSeq ".pdf".data (run.drop 1) then some run else none
        else none
      | [] => none
    | _ => none
  else none

/-- `onclick.match(/location\.href\s*=\s*['"]([^'"]+\.pdf[^'"]*)/)`. -/
def locHrefPdf (onclick : List Char) : Option (List Char) :=
  scanPos locHrefHere onclick

/-- The button tier: iterate the matches of
`/<button[^>]+onclick\s*=\s*["']([^"']+)["']/gi` in order (each next scan
resumes after the previous match, as `matchAll` does) and return the
first onclick value containing a `location.href` file assignment.  The
fuel argument bounds the recursion; the initial fuel `l.length` suffices
because every step consumes at least one character. -/
def buttonTierGo : Nat → List Char → Option (List Char)
  | 0, _ => none
  | _, [] => none
  | fuel + 1, c :: cs =>
    if ciStarts (c :: cs) "<button".data then
      match
        (let after := (c :: cs).drop 7
         attrScanDesc after "onclick".data (after.takeWhile (fun x => x ≠ '>')).length) with
      | some r =>
        (match locHrefPdf r.1 with
         | some u => some u
         | none => buttonTierGo fuel r.2)
      | none => buttonTierGo fuel cs
    else buttonTierGo fuel cs

/-- The button tier on strings. -/
def buttonPdf (html : String) : Option String :=
  (buttonTierGo html.data.length html.data).map String.mk

/-- `match[1].replace(/\\\//g, "/")`: unescape JSON-escaped slashes. -/
def unescSlashes : List Char → List Char
  | '\\' :: '/' :: rest => '/' :: unescSlashes rest
  | c :: rest => c :: unescSlashes rest
  | [] => []

/-- `unescSlashes` on strings. -/
def unescSlashesStr (s : String) : String := String.mk (unescSlashes s.data)

/-- A character admissible in the inline-script URL pattern
(`[^\s"<>']`). -/
def scriptUrlChar (c : Char) : Bool :=
  !(c.isWhitespace || c == dquote || c == '<' || c == '>' || c == squote)

/-- Match `(https?:\/\/[^\s"<>']+\.pdf[^\s"<>']*)` at the head (case
sensitive): a protocol, then the maximal admissible run, which must
contain `.pdf` at index at least 1. -/
def scriptPdfHere (l : List Char) : Option (List Char) :=
  let proto : Option (List Char × List Char) :=
    if startsL l "https://".data then some (l.take 8, l.drop 8)
    else if startsL l "http://".data then some (l.take 7, l.drop 7)
    else none
  match proto with
  | some pr =>
    let run := pr.2.takeWhile scriptUrlChar
    if containsSeq ".pdf".data (run.drop 1) then some (pr.1 ++ run) else none
  | none => none

/-- First absolute `.pdf` URL in a script body. -/
def scriptPdfUrl (txt : List Char) : Option (List Char) :=
  scanPos scriptPdfHere txt

/-- Split at the first case-insensitive occurrence of `pat`: the part
before it and the remainder after it. -/
def splitUntilCI (pat : List Char) : List Char → Option (List Char × List Char)
  | [] => none
  | c :: cs =>
    if ciStarts (c :: cs) pat then some ([], (c :: cs).drop pat.length)
    else (splitUntilCI pat cs).map (fun r => (c :: r.1, r.2))

/-- Parse a script block after its `<script` opener: `[^>]*>` then the
lazy body up to the first `</script>`.  Returns the body and the
remainder after the end tag. -/
def scriptBlockAt (after : List Char) : Option (List Char × List Char) :=
  let run := after.takeWhile (fun x => x ≠ '>')
  match after.drop run.length with
  | '>' :: body => splitUntilCI "</script>".data body
  | _ => none

/-- The script tier: iterate the matches of
`/<script[^>]*>([\s\S]*?)<\/script>/gi` in order and return the first
absolute `.pdf` URL found in a block body.  The returned URL is passed
through unmodified by the source (no `normalizeUrl` call on this tier).
Fuel as in `buttonTierGo`. -/
def scriptTierGo : Nat → List Char → Option (List Char)
  | 0, _ => none
  | _, [] => none
  | fuel + 1, c :: cs =>
    if ciStarts (c :: cs) "<script".data then
      match scriptBlockAt ((c :: cs).drop 7) with
      | some r =>
        (match scriptPdfUrl r.1 with
         | some u => some u
         | none => scriptTierGo fuel r.2)
      | none => scriptTierGo fuel cs
    else scriptTierGo fuel cs

/-- The script tier on strings. -/
def scriptPdf (html : String) : Option String :=
  (scriptTierGo html.data.length html.data).map String.mk

/-- Match the last-resort pattern
`(?:src|href|data)\s*=\s*["']((?:https?:)?\/\/[^"']+\.pdf[^"']*)/i` at the
head of the list. -/
def anyPdfHere (l : List Char) : Option (List Char) :=
  let kwLen : Option Nat :=
    if ciStarts l "src".data then some 3
    else if ciStarts l "href".data then some 4
    else if ciStarts l "data".data then some 4
    else none
  match kwLen with
  | some n =>
    let l1 := (l.drop n).dropWhile Char.isWhitespace
    match l1 with
    | '=' :: l2 =>
      let l3 := l2.dropWhile Char.isWhitespace
      match l3 with
      | q :: l4 =>
        if isQuote q then
          let protoSplit : List Char × List Char :=
            if ciStarts l4 "https:".data then (l4.take 6, l4.drop 6)
            else if ciStarts l4 "http:".data then (l4.take 5, l4.drop 5)
            else ([], l4)
          if startsL protoSplit.2 "//".data then
            let run := (protoSplit.2.drop 2).takeWhile (fun c => !isQuote c)
            if containsSeq ".pdf".data (run.drop 1) then
              some (protoSplit.1 ++ '/' :: '/' :: run)
            else none
          else none
        else none
      | [] => none
    | _ => none
  | none => none

/-- The last-resort tier on strings. -/
def anyPdfAttr (html : String) : Option String :=
  (scanPos anyPdfHere html.data).map String.mk

/-- The object tier's accepted reference: the first object `data` URL,
kept only when it looks like a file path (otherwise the source falls
through to the button tier). -/
def objectTier (html : String) : Option String :=
  match objectData html with
  | some d => if objLooksPdf d then some d else none
  | none => none

/-- The body-scanning part of `findPDFUrl` of the regex variant: the
priority chain of tiers over the fetched HTML.  Every tier except the
script tier passes its reference through `normalizeUrl`. -/
def findPDFUrlBody (html mirror : String) : Option String :=
  match iframeSrc html with
  | some r => normalizeUrl r mirror
  | none =>
    match embedPdfSrc html with
    | some r => normalizeUrl r mirror
    | none =>
      match embedPdfSrc2 html with
      | some r => normalizeUrl r mirror
      | none =>
        match embedAnySrc html with
        | some r => normalizeUrl r mirror
        | none =>
          match objectTier html with
          | some d => normalizeUrl d mirror
          | none =>
            match buttonPdf html with
            | some b => normalizeUrl (unescSlashesStr b) mirror
            | none =>
              match scriptPdf html with
              | some u => some u
              | none =>
                match anyPdfAttr html with
                | some a => normalizeUrl a mirror
                | none => none

/-- A mirror's HTTP response to the lookup request. -/
structure MirrorResponse where
  contentType : String
  respUrl : String
  body : String

/-- `findPDFUrl(mirror, doi)` of the regex variant, given the mirror's
response: a direct PDF content type short-circuits to the response URL;
a Cloudflare challenge page throws; otherwise the body is scanned. -/
def findPDFUrl (resp : MirrorResponse) (mirror : String) : Except String (Option String) :=
  if jsIncludes resp.contentType "application/pdf" then Except.ok (some resp.respUrl)
  else if jsIncludes resp.body "Just a moment" && jsIncludes resp.body "cf_chl" then
    Except.error "Cloudflare challenge"
  else Except.ok (findPDFUrlBody resp.body mirror)

/-- `downloadFromUrl` of the regex variant: the preliminary HEAD
content-type check is logged but never fatal, no payload is fetched and
no signature is validated; the platform download is always invoked with
the resolved URL and the derived filename. -/
def downloadFromUrl (_headContentType : String) (doi : String) : SaveOutcome :=
  SaveOutcome.persisted (doiFilename doi)

end BackgroundSW

/-! ## General lemmas about the embedding's building blocks -/

namespace Content

theorem firstHit_exists {f : α → Option β} {L : List α} {b : β}
    (h : firstHit f L = some b) : ∃ a ∈ L, f a = some b := by
  induction L with
  | nil => simp [firstHit] at h
  | cons a L ih =>
    rw [firstHit] at h
    cases hfa : f a with
    | some b0 =>
      rw [hfa] at h
      exact ⟨a, List.mem_cons_self a L, by simpa [hfa] using h⟩
    | none =>
      rw [hfa] at h
      obtain ⟨a', ha', hfa'⟩ := ih h
      exact ⟨a', List.mem_cons_of_mem a ha', hfa'⟩

theorem firstHit_of_uniform {f : α → Option β} {L : List α} {b : β}
    (huni : ∀ a ∈ L, f a = none ∨ f a = some b)
    (hex : ∃ a ∈ L, (f a).isSome) : firstHit f L = some b := by
  induction L with
  | nil => simp at hex
  | cons a L ih =>
    rw [firstHit]
    cases hfa : f a with
    | some b0 =>
      rcases huni a (List.mem_cons_self a L) with h | h
      · simp [hfa] at h
      · rw [hfa] at h
        exact h
    | none =>
      apply ih
      · exact fun a' ha' => huni a' (List.mem_cons_of_mem a ha')
      · obtain ⟨a', ha', hsome⟩ := hex
        rcases List.mem_cons.mp ha' with rfl | ha'
        · simp [hfa] at hsome
        · exact ⟨a', ha', hsome⟩

theorem takeWhile_append_all {p : Char → Bool} {xs : List Char} {y : Char} {zs : List Char}
    (hxs : ∀ c ∈ xs, p c = true) (hy : p y = false) :
    (xs ++ y :: zs).takeWhile p = xs := by
  induction xs with
  | nil => simp [List.takeWhile, hy]
  | cons x xs ih =>
    have hx := hxs x (List.mem_cons_self x xs)
    simp only [List.cons_append, List.takeWhile_cons, hx, if_true]
    rw [ih (fun c hc => hxs c (List.mem_cons_of_mem x hc))]

theorem dropWhile_append_all {p : Char → Bool} {xs : List Char} {y : Char} {zs : List Char}
    (hxs : ∀ c ∈ xs, p c = true) (hy : p y = false) :
    (xs ++ y :: zs).dropWhile p = y :: zs := by
  induction xs with
  | nil => simp [List.dropWhile, hy]
  | cons x xs ih =>
    have hx := hxs x (List.mem_cons_self x xs)
    simp only [List.cons_append, List.dropWhile_cons, hx, if_true]
    exact ih (fun c hc => hxs c (List.mem_cons_of_mem x hc))

theorem dropWhile_head_false {p : α → Bool} :
    ∀ {l : List α} {c : α} {rest : List α}, l.dropWhile p = c :: rest → p c = false := by
  intro l
  induction l with
  | nil => intro c rest h; simp [List.dropWhile] at h
  | cons a l ih =>
    intro c rest h
    rw [List.dropWhile_cons] at h
    by_cases hpa : p a
    · rw [if_pos hpa] at h; exact ih h
    · rw [if_neg hpa] at h
      cases h
      simpa using hpa

/-- A nonempty `truncAtLastWord` result ends in a word character. -/
theorem truncAtLastWord_shape (l : List Char) :
    truncAtLastWord l = [] ∨
      ∃ (tok' : List Char) (c : Char),
        truncAtLastWord l = tok' ++ [c] ∧ isWordChar c = true := by
  unfold truncAtLastWord
  cases hdrop : l.reverse.dropWhile (fun c => !isWordChar c) with
  | nil => left; simp
  | cons c rest =>
    right
    refine ⟨rest.reverse, c, by simp, ?_⟩
    have := dropWhile_head_false hdrop
    simpa using this

/-- Every result of `doiMatchHere` decomposes into `10.`, a digit run of
length 4 to 9, `/`, and a nonempty token ending in a word character. -/
theorem doiMatchHere_shape {l r : List Char} (h : doiMatchHere l = some r) :
    ∃ (ds tok' : List Char) (c : Char),
      r = '1' :: '0' :: '.' :: (ds ++ '/' :: (tok' ++ [c])) ∧
        (∀ d ∈ ds, d.isDigit = true) ∧ 4 ≤ ds.length ∧ ds.length ≤ 9 ∧
        isWordChar c = true := by
  unfold doiMatchHere at h
  split at h
  next rest =>
    dsimp only [] at h
    split at h
    next hlen =>
      split at h
      next r3 hr2 =>
        split at h
        next hemp => exact absurd h (by simp)
        next hemp =>
          rcases truncAtLastWord_shape (r3.takeWhile isDoiTokenChar) with h0 | ⟨tok', c, heq, hw⟩
          · exact absurd h0 (by simpa [List.isEmpty_iff] using hemp)
          · rw [heq] at h
            cases h
            exact ⟨rest.takeWhile Char.isDigit, tok', c, rfl,
              fun d hd => List.mem_takeWhile_imp hd, hlen.1, hlen.2, hw⟩
      next _ _ => exact absurd h (by simp)
    next hlen => exact absurd h (by simp)
  next _ _ => exact absurd h (by simp)

/-- Every hit of the `DOI_REGEX` scanner originates in `doiMatchHere`. -/
theorem doiScanGo_from_matchHere :
    ∀ {b : Bool} {l r : List Char}, doiScanGo b l = some r →
      ∃ l0, doiMatchHere l0 = some r := by
  intro b l
  induction l generalizing b with
  | nil => intro r h; simp [doiScanGo] at h
  | cons c cs ih =>
    intro r h
    rw [doiScanGo] at h
    split at h
    next r' hm =>
      cases h
      cases hb : b
      · rw [hb] at hm
        exact ⟨c :: cs, by simpa using hm⟩
      · rw [hb] at hm; simp at hm
    next hm => exact ih h

/-- A word character is not trailing punctuation. -/
theorem isWordChar_not_trailPunct {c : Char} (h : isWordChar c = true) :
    isTrailPunct c = false := by
  by_contra hp
  have hp' : isTrailPunct c = true := by
    cases h' : isTrailPunct c
    · exact absurd h' hp
    · rfl
  have hc : c = '.' ∨ c = ',' ∨ c = ';' ∨ c = ')' ∨ c = ']' := by
    simp only [isTrailPunct, Bool.or_eq_true, beq_iff_eq] at hp'
    tauto
  rcases hc with rfl | rfl | rfl | rfl | rfl <;> simp [isWordChar] at h

/-- Every identifier produced by a `DOI_REGEX` match is untouched by
`cleanDOI` and matches the specification's DOI syntax pattern. -/
theorem doiFirstMatchStr_props {s : String} {r : String}
    (h : doiFirstMatchStr s = some r) :
    cleanDOI r = r ∧ matchesDOIPattern r = true := by
  unfold doiFirstMatchStr at h
  cases hscan : doiScanGo false s.data with
  | none => rw [hscan] at h; cases h
  | some rl =>
    rw [hscan] at h
    cases h
    obtain ⟨l0, hmh⟩ := doiScanGo_from_matchHere hscan
    obtain ⟨ds, tok', c, hshape, hdig, h4, h9, hword⟩ := doiMatchHere_shape hmh
    subst hshape
    constructor
    · -- cleanDOI is the identity: the last character is a word character
      unfold cleanDOI
      apply congrArg String.mk
      show (('1' :: '0' :: '.' :: (ds ++ '/' :: (tok' ++ [c]))).reverse.dropWhile
              isTrailPunct).reverse = _
      have hrev :
          ('1' :: '0' :: '.' :: (ds ++ '/' :: (tok' ++ [c]))).reverse =
            c :: (tok'.reverse ++ ('/' :: ds.reverse) ++ ['.', '0', '1']) := by
        simp
      rw [hrev, List.dropWhile_cons, isWordChar_not_trailPunct hword]
      simp [← hrev]
    · -- the decomposition realises the DOI pattern
      have hred :
          ∀ L : List Char,
            matchesDOIPattern (String.mk ('1' :: '0' :: '.' :: L)) =
              ((decide (4 ≤ (L.takeWhile Char.isDigit).length ∧
                  (L.takeWhile Char.isDigit).length ≤ 9)) &&
                (match L.dropWhile Char.isDigit with
                 | '/' :: tok => !tok.isEmpty
                 | _ => false)) := fun _ => rfl
      rw [hred]
      have hslash : Char.isDigit '/' = false := by decide
      rw [takeWhile_append_all hdig hslash, dropWhile_append_all hdig hslash]
      simp [h4, h9]

end Content

namespace Background

theorem handleLoop_trace_prefix (find : String → FindResult) (dl : String → DlResult) :
    ∀ (ms : List String) (lastE : Option String),
      ∃ rest, (handleLoop find dl ms lastE).2 ++ rest = ms := by
  intro ms
  induction ms with
  | nil => intro lastE; exact ⟨[], rfl⟩
  | cons m ms ih =>
    intro lastE
    cases hf : find m with
    | thrown msg =>
      obtain ⟨rest, hrest⟩ := ih (some msg)
      refine ⟨rest, ?_⟩
      simp only [handleLoop, hf, List.cons_append]
      rw [hrest]
    | noUrl =>
      obtain ⟨rest, hrest⟩ := ih (some "Could not find PDF URL")
      refine ⟨rest, ?_⟩
      simp only [handleLoop, hf, List.cons_append]
      rw [hrest]
    | found url =>
      cases hd : dl url with
      | thrown msg =>
        obtain ⟨rest, hrest⟩ := ih (some msg)
        refine ⟨rest, ?_⟩
        simp only [handleLoop, hf, hd, List.cons_append]
        rw [hrest]
      | ok i =>
        refine ⟨ms, ?_⟩
        simp only [handleLoop, hf, hd, List.cons_append, List.nil_append]

theorem handleLoop_all_fail (find : String → FindResult) (dl : String → DlResult) :
    ∀ (ms : List String) (lastE : Option String),
      (∀ m ∈ ms, (attemptError find dl m).isSome) →
      (handleLoop find dl ms lastE).1 =
        ⟨false, some (jsOrDefault (ms.foldl (fun _ m => attemptError find dl m) lastE))⟩ := by
  intro ms
  induction ms with
  | nil => intro lastE _; rfl
  | cons m ms ih =>
    intro lastE hall
    have hm := hall m (List.mem_cons_self m ms)
    have hrest := fun m' hm' => hall m' (List.mem_cons_of_mem m hm')
    cases hf : find m with
    | thrown msg =>
      have hstep : attemptError find dl m = some msg := by simp [attemptError, hf]
      simp only [handleLoop, hf, List.foldl_cons, hstep]
      exact ih (some msg) hrest
    | noUrl =>
      have hstep : attemptError find dl m = some "Could not find PDF URL" := by
        simp [attemptError, hf]
      simp only [handleLoop, hf, List.foldl_cons, hstep]
      exact ih (some "Could not find PDF URL") hrest
    | found url =>
      cases hd : dl url with
      | thrown msg =>
        have hstep : attemptError find dl m = some msg := by simp [attemptError, hf, hd]
        simp only [handleLoop, hf, hd, List.foldl_cons, hstep]
        exact ih (some msg) hrest
      | ok i =>
        exact absurd hm (by simp [attemptError, hf, hd])

theorem handleLoop_success (find : String → FindResult) (dl : String → DlResult) :
    ∀ (pre : List String) (m : String) (rest : List String) (lastE : Option String),
      (∀ m' ∈ pre, (attemptError find dl m').isSome) →
      attemptError find dl m = none →
      handleLoop find dl (pre ++ m :: rest) lastE = (⟨true, none⟩, pre ++ [m]) := by
  intro pre
  induction pre with
  | nil =>
    intro m rest lastE _ hnone
    rw [List.nil_append]
    cases hf : find m with
    | thrown msg => exact absurd hnone (by simp [attemptError, hf])
    | noUrl => exact absurd hnone (by simp [attemptError, hf])
    | found url =>
      cases hd : dl url with
      | thrown msg => exact absurd hnone (by simp [attemptError, hf, hd])
      | ok i => simp [handleLoop, hf, hd]
  | cons p pre ih =>
    intro m rest lastE hall hnone
    have hp := hall p (List.mem_cons_self p pre)
    have hrest := fun m' hm' => hall m' (List.mem_cons_of_mem p hm')
    rw [List.cons_append]
    cases hf : find p with
    | thrown msg =>
      simp only [handleLoop, hf, ih m rest (some msg) hrest hnone, List.cons_append]
    | noUrl =>
      simp only [handleLoop, hf,
        ih m rest (some "Could not find PDF URL") hrest hnone, List.cons_append]
    | found url =>
      cases hd : dl url with
      | thrown msg =>
        simp only [handleLoop, hf, hd, ih m rest (some msg) hrest hnone, List.cons_append]
      | ok i => exact absurd hp (by simp [attemptError, hf, hd])

theorem allowedFileChar_fixed {l : List Char} (h : ∀ c ∈ l, allowedFileChar c = true) :
    (l.map fun c => if c = '/' then '_' else c).filter allowedFileChar = l := by
  induction l with
  | nil => rfl
  | cons c l ih =>
    have hc := h c (List.mem_cons_self c l)
    have hslash : c ≠ '/' := by
      intro heq
      rw [heq] at hc
      simp [allowedFileChar] at hc
    simp only [List.map_cons, if_neg hslash, List.filter_cons, hc, if_true]
    rw [ih (fun c' hc' => h c' (List.mem_cons_of_mem c hc'))]

end Background

/-! ## Claim theorems -/

/-- Claim C8: the filename derivation of `downloadFromUrl` (replace every
slash by an underscore, then delete every character outside
`[a-zA-Z0-9._-]`) is idempotent: applying the transform twice yields the
same result as applying it once (it is deterministic by virtue of being
a function). -/
theorem c8_filename_idempotent (doi : String) :
    Background.sanitizeDOI (Background.sanitizeDOI doi) = Background.sanitizeDOI doi := by
  unfold Background.sanitizeDOI
  apply congrArg String.mk
  exact Background.allowedFileChar_fixed (fun c hc => List.of_mem_filter hc)

/-- Claim C9: within one resolution, the sequence of mirror lookup
requests issued by `handleDownload` is an in-order prefix of the static
mirror list, and no mirror is asked twice. -/
theorem c9_mirror_order (find : String → Background.FindResult)
    (dl : String → Background.DlResult) :
    (∃ rest, Background.mirrorsTried find dl ++ rest = Background.SCIHUB_MIRRORS) ∧
      (Background.mirrorsTried find dl).Nodup := by
  obtain ⟨rest, hrest⟩ :=
    Background.handleLoop_trace_prefix find dl Background.SCIHUB_MIRRORS none
  have hnd : Background.SCIHUB_MIRRORS.Nodup := by decide
  refine ⟨⟨rest, hrest⟩, ?_⟩
  have hsub : List.Sublist (Background.mirrorsTried find dl) Background.SCIHUB_MIRRORS := by
    rw [← hrest]
    exact List.sublist_append_left _ _
  exact hnd.sublist hsub

/-- Claim C6: on a page whose hostname contains an ignored domain,
`init` attaches no control, whatever DOI metadata the page carries. -/
theorem c6_ignored_domains (p : Content.Page) (d : String)
    (hd : d ∈ Content.IGNORE_DOMAINS) (hincl : Content.jsIncludes p.hostname d = true) :
    Content.init p = none := by
  have hign : Content.shouldIgnorePage p.hostname = true :=
    List.any_eq_true.mpr ⟨d, hd, hincl⟩
  unfold Content.init
  rw [if_pos hign]

/-- A page on an ignored domain carrying a perfectly valid `citation_doi`
meta tag (plus URL and link metadata). -/
def c6page : Content.Page :=
  { hostname := "www.google.com"
  , href := "https://www.google.com/search?q=10.1038/nature12373"
  , metas := [{ name := some "citation_doi", property := none, scheme := none
              , content := some "10.1038/nature12373" }]
  , lds := []
  , links := ["https://doi.org/10.1038/nature12373"]
  , inlineScripts := []
  , containerTexts := ["doi: 10.1038/nature12373"] }

/-- Witness for C6: the concrete ignored-domain page with valid metadata
yields no control. -/
theorem c6_ignored_domains_witness : Content.init c6page = none :=
  c6_ignored_domains c6page "google.com" (by decide) (by decide)

/-- Claim C5: when every configured mirror's attempt fails, the outcome
is a failure carrying exactly the error recorded for the last mirror
attempted (`https://sci-hub.ru`), not an aggregate. -/
theorem c5_last_error (find : String → Background.FindResult)
    (dl : String → Background.DlResult) (e : String)
    (hall : ∀ m ∈ Background.SCIHUB_MIRRORS, (Background.attemptError find dl m).isSome)
    (hlast : Background.attemptError find dl "https://sci-hub.ru" = some e)
    (hne : e ≠ "") :
    Background.handleDownload find dl = ⟨false, some e⟩ := by
  unfold Background.handleDownload
  rw [Background.handleLoop_all_fail find dl Background.SCIHUB_MIRRORS none hall]
  simp only [Background.SCIHUB_MIRRORS, List.foldl_cons, List.foldl_nil]
  rw [hlast]
  simp [Background.jsOrDefault, hne]

/-- An environment in which no mirror yields a PDF URL. -/
def findNoUrl : String → Background.FindResult := fun _ => Background.FindResult.noUrl

/-- A download oracle that always succeeds (never reached in `c5`'s
witness environment). -/
def dlAlwaysOk : String → Background.DlResult := fun _ => Background.DlResult.ok 0

/-- Witness for C5: with every mirror failing with "Could not find PDF
URL", that error (from the last mirror) is surfaced. -/
theorem c5_last_error_witness :
    Background.handleDownload findNoUrl dlAlwaysOk = ⟨false, some "Could not find PDF URL"⟩ :=
  c5_last_error findNoUrl dlAlwaysOk "Could not find PDF URL"
    (by decide) (by decide) (by decide)

/-- Claim C1 counterexample environment: in the regex/service-worker
variant, `downloadFromUrl` invokes the platform download unconditionally
— it never fetches the payload, so a payload such as `"HELLO"`, whose
first five bytes are not `%PDF-`, is persisted rather than rejected with
an "invalid content" error. -/
theorem c1_counterexample :
    BackgroundSW.downloadFromUrl "text/html" "10.1/x" =
        Background.SaveOutcome.persisted "10.1_x.pdf" ∧
      Content.startsL ("HELLO".data.take 5) "%PDF-".data = false := by
  exact ⟨rfl, by decide⟩

/-- Claim C1 (amended): in the DOM-parser variant (`background.js`), a
fetched payload whose first five bytes are not `%PDF-` always makes
`downloadFromUrl` fail without invoking the platform download, and when
the declared content type passed the PDF check the error is exactly
"Invalid PDF content"; the regex variant performs no payload
validation (see the counterexample). -/
theorem c1_amended (ct payload doi : String)
    (hsig : Content.startsL (payload.data.take 5) "%PDF-".data = false) :
    (∃ msg, BackgroundDOM.downloadFromUrl ct payload doi =
        Background.SaveOutcome.failed msg) ∧
      (Content.jsIncludes ct "application/pdf" = true →
        BackgroundDOM.downloadFromUrl ct payload doi =
          Background.SaveOutcome.failed "Invalid PDF content") := by
  unfold BackgroundDOM.downloadFromUrl
  constructor
  · by_cases hct : Content.jsIncludes ct "application/pdf"
    · exact ⟨"Invalid PDF content", by simp [hct, hsig]⟩
    · exact ⟨"Response is not a PDF (got " ++ ct ++ ")", by simp [hct]⟩
  · intro hct
    simp [hct, hsig]

/-- Witness for C1 (amended): the DOM variant rejects the payload
`"HELLO"` under a PDF content type with the invalid-content error. -/
theorem c1_amended_witness :
    BackgroundDOM.downloadFromUrl "application/pdf" "HELLO" "10.1/x" =
      Background.SaveOutcome.failed "Invalid PDF content" :=
  (c1_amended "application/pdf" "HELLO" "10.1/x" (by decide)).2 (by decide)

/-- C3 counterexample environment: the first mirror resolves a reference
whose validation fails, the second mirror succeeds. -/
def c3find : String → Background.FindResult := fun m =>
  if m = "https://sci-hub.vg" then Background.FindResult.found "u1"
  else Background.FindResult.found "u2"

/-- C3 counterexample download oracle: validation fails on the first
mirror's URL only. -/
def c3dl : String → Background.DlResult := fun u =>
  if u = "u1" then Background.DlResult.thrown "Invalid PDF content"
  else Background.DlResult.ok 7

/-- Claim C3 counterexample: the first mirror resolves a file reference
and its validation fails with "Invalid PDF content", yet that validation
failure is not surfaced — the loop moves on and the request succeeds
with no error at all. -/
theorem c3_counterexample :
    Background.handleDownload c3find c3dl = ⟨true, none⟩ ∧
      c3find "https://sci-hub.vg" = Background.FindResult.found "u1" ∧
      c3dl "u1" = Background.DlResult.thrown "Invalid PDF content" := by
  exact ⟨by decide, rfl, rfl⟩

/-- Claim C3 (amended): an error inside a single mirror attempt —
validation failures included — never aborts the resolution loop: if all
mirrors before some mirror fail and that mirror's attempt succeeds, the
request succeeds with no surfaced error (and exactly those mirrors were
tried); a validation failure is surfaced as the request's error only
when every mirror fails and it is the error of the last attempt. -/
theorem c3_amended :
    (∀ (find : String → Background.FindResult) (dl : String → Background.DlResult)
        (pre : List String) (m : String) (rest : List String),
      Background.SCIHUB_MIRRORS = pre ++ m :: rest →
      (∀ m' ∈ pre, (Background.attemptError find dl m').isSome) →
      Background.attemptError find dl m = none →
      Background.handleDownload find dl = ⟨true, none⟩ ∧
        Background.mirrorsTried find dl = pre ++ [m]) ∧
    (∀ (find : String → Background.FindResult) (dl : String → Background.DlResult)
        (e : String),
      (∀ m ∈ Background.SCIHUB_MIRRORS, (Background.attemptError find dl m).isSome) →
      Background.attemptError find dl "https://sci-hub.ru" = some e →
      e ≠ "" →
      Background.handleDownload find dl = ⟨false, some e⟩) := by
  constructor
  · intro find dl pre m rest hsplit hpre hm
    have h := Background.handleLoop_success find dl pre m rest none hpre hm
    unfold Background.handleDownload Background.mirrorsTried
    rw [hsplit, h]
    exact ⟨rfl, rfl⟩
  · intro find dl e hall hlast hne
    unfold Background.handleDownload
    rw [Background.handleLoop_all_fail find dl Background.SCIHUB_MIRRORS none hall]
    simp only [Background.SCIHUB_MIRRORS, List.foldl_cons, List.foldl_nil]
    rw [hlast]
    simp [Background.jsOrDefault, hne]

/-- C3 witness environment: the first mirror throws, the second
resolves and downloads fine. -/
def c3wfind : String → Background.FindResult := fun m =>
  if m = "https://sci-hub.vg" then Background.FindResult.thrown "Cloudflare challenge"
  else if m = "https://sci-hub.al" then Background.FindResult.found "u"
  else Background.FindResult.noUrl

/-- C3 witness download oracle. -/
def c3wdl : String → Background.DlResult := fun u =>
  if u = "u" then Background.DlResult.ok 1 else Background.DlResult.thrown "x"

/-- Witness for C3 (amended): a first-mirror error does not abort the
loop; the second mirror succeeds and exactly two lookups are issued. -/
theorem c3_amended_witness :
    Background.handleDownload c3wfind c3wdl = ⟨true, none⟩ ∧
      Background.mirrorsTried c3wfind c3wdl = ["https://sci-hub.vg", "https://sci-hub.al"] :=
  c3_amended.1 c3wfind c3wdl ["https://sci-hub.vg"] "https://sci-hub.al"
    ["https://sci-hub.mk", "https://sci-hub.ru"] (by decide) (by decide) (by decide)

/-- Claim C7: for a well-formed metadata tag (one matching a selector of
the fixed tier-1 list) whose content contains a valid identifier pattern
after stripping a leading `doi:`/resolver prefix, `detectDOI` returns
exactly that stripped identifier, regardless of the page's URL, JSON-LD
blocks, links, scripts and visible text (tier 1 short-circuits before
any lower tier is consulted). -/
theorem c7_meta_tier (t : Content.MetaTag) (host href : String)
    (lds : List (Option Content.JsonVal)) (links scripts conts : List String) (d : String)
    (hsel : Content.metaSelectors.any (fun sel => sel t) = true)
    (hmatch : Content.doiFirstMatchStr (Content.stripLeadingDoi (t.content.getD "")) = some d) :
    Content.detectDOI ⟨host, href, [t], lds, links, scripts, conts⟩ = some d := by
  have hmeta : Content.metaTier [t] = some d := by
    apply Content.firstHit_of_uniform
    · intro sel _
      unfold Content.querySelectorMeta
      by_cases hs : sel t
      · right
        simp only [List.find?, hs]
        exact hmatch
      · left
        simp only [List.find?, hs]
    · obtain ⟨sel, hmem, hst⟩ := List.any_eq_true.mp hsel
      refine ⟨sel, hmem, ?_⟩
      simp only [Content.querySelectorMeta, List.find?, hst, hmatch, Option.isSome]
  unfold Content.detectDOI
  simp only [hmeta]

/-- C7 witness tag: a standard `citation_doi` meta element with a
`doi:`-prefixed content. -/
def c7tag : Content.MetaTag :=
  { name := some "citation_doi", property := none, scheme := none
  , content := some "doi:10.1038/nature12373" }

/-- Witness for C7: the tag's identifier is returned with the `doi:`
prefix stripped, even though a lower tier (a resolver link) advertises a
different identifier. -/
theorem c7_meta_tier_witness :
    Content.detectDOI
        ⟨"journal.org", "https://journal.org/article", [c7tag], [],
          ["https://doi.org/10.9999/other"], [], []⟩ = some "10.1038/nature12373" :=
  c7_meta_tier c7tag "journal.org" "https://journal.org/article" []
    ["https://doi.org/10.9999/other"] [] [] "10.1038/nature12373" (by decide) (by decide)

/-- C2 counterexample page: no metadata at all, and a resolver-style URL
whose DOI suffix consists solely of dots. -/
def c2page : Content.Page :=
  { hostname := "example.com", href := "https://doi.org/10.1038/..."
  , metas := [], lds := [], links := [], inlineScripts := [], containerTexts := [] }

/-- Claim C2 counterexample: on `c2page` the URL tier extracts
`10.1038/...`, cleaning strips the dots to `10.1038/` — which does not
match the DOI syntax pattern (its token is empty) — and yet the pipeline
does not halt: the control is attached with that identifier (and a fetch
would be issued with it). -/
theorem c2_counterexample :
    Content.init c2page = some "10.1038/" ∧
      Content.matchesDOIPattern "10.1038/" = false := by
  exact ⟨by decide, by decide⟩

/-- Claim C2 (amended): after extraction and cleaning the pipeline halts
exactly when the page is ignored, no candidate is produced, or the
cleaned candidate is empty — the cleaned identifier is not re-validated
against the DOI syntax.  Candidates originating from the meta-tag tier
do always match the DOI syntax pattern and are untouched by cleaning,
but URL-tier candidates need not (see the counterexample). -/
theorem c2_amended :
    (∀ (p : Content.Page) (d : String),
      Content.init p = some d ↔
        (Content.shouldIgnorePage p.hostname = false ∧
          ∃ c, Content.detectDOI p = some c ∧ Content.cleanDOI c = d ∧ d ≠ "")) ∧
    (∀ (metas : List Content.MetaTag) (d : String),
      Content.metaTier metas = some d →
        Content.cleanDOI d = d ∧ Content.matchesDOIPattern d = true) := by
  constructor
  · intro p d
    unfold Content.init
    by_cases hign : Content.shouldIgnorePage p.hostname
    · simp [hign]
    · cases hdet : Content.detectDOI p with
      | none => simp [hign, hdet]
      | some c =>
        by_cases hc : Content.cleanDOI c = ""
        · simp only [if_neg hign, hdet, hc, if_true]
          constructor
          · intro h; cases h
          · rintro ⟨-, c', hc', rfl, hne⟩
            cases hc'
            exact absurd hc hne
        · simp only [if_neg hign, hdet, hc, if_false]
          constructor
          · rintro h
            cases h
            exact ⟨by simp [hign], c, rfl, rfl, hc⟩
          · rintro ⟨-, c', hc', rfl, -⟩
            cases hc'
            rfl
  · intro metas d h
    unfold Content.metaTier at h
    obtain ⟨sel, -, hsel⟩ := Content.firstHit_exists h
    cases hq : Content.querySelectorMeta sel metas with
    | none => rw [hq] at hsel; cases hsel
    | some el =>
      rw [hq] at hsel
      exact Content.doiFirstMatchStr_props hsel

/-- Witness for C2 (amended): instantiating the meta-tier conjunct at a
concrete singleton page: the tier-1 identifier is clean and pattern
conformant. -/
theorem c2_amended_witness :
    Content.cleanDOI "10.1038/nature12373" = "10.1038/nature12373" ∧
      Content.matchesDOIPattern "10.1038/nature12373" = true :=
  c2_amended.2 [c7tag] "10.1038/nature12373" (by decide)

namespace Content

/-- A string reachable by `extractDOIFromLD`: a string value (or string
array element) stored under one of the fixed key names, at any array
nesting depth. -/
inductive LDKeyString : JsonVal → String → Prop where
  | ofStr {kvs : List (String × JsonVal)} {k s : String} :
      k ∈ ldKeys → jsLookup kvs k = some (JsonVal.str s) →
      LDKeyString (JsonVal.obj kvs) s
  | ofArr {kvs : List (String × JsonVal)} {k s : String} {items : List JsonVal} :
      k ∈ ldKeys → jsLookup kvs k = some (JsonVal.arr items) →
      JsonVal.str s ∈ items → LDKeyString (JsonVal.obj kvs) s
  | inArr {xs : List JsonVal} {v : JsonVal} {s : String} :
      v ∈ xs → LDKeyString v s → LDKeyString (JsonVal.arr xs) s

/-- The structured-data walker is sound: whatever it returns is a
`DOI_REGEX` match (hence DOI-pattern conformant) of the prefix-stripped
form of a string stored under one of the fixed keys. -/
theorem extractLD_good :
    ∀ (n : Nat) (v : JsonVal) (r : String), sizeOf v ≤ n →
      extractDOIFromLD v = some r →
      matchesDOIPattern r = true ∧
        ∃ s, LDKeyString v s ∧ doiFirstMatchStr (stripLeadingDoi s) = some r := by
  intro n
  induction n with
  | zero =>
    intro v r hsz h
    exact absurd hsz (by cases v <;> simp)
  | succ n ih =>
    intro v r hsz h
    cases v with
    | null => simp [extractDOIFromLD] at h
    | bool b => simp [extractDOIFromLD] at h
    | num k => simp [extractDOIFromLD] at h
    | str s => simp [extractDOIFromLD] at h
    | obj kvs =>
      rw [show extractDOIFromLD (JsonVal.obj kvs) = ldObjScan kvs from rfl] at h
      obtain ⟨k, hk, hkres⟩ := firstHit_exists h
      cases hlook : jsLookup kvs k with
      | none => rw [hlook] at hkres; cases hkres
      | some v' =>
        rw [hlook] at hkres
        cases v' with
        | str s =>
          exact ⟨(doiFirstMatchStr_props hkres).2, s, LDKeyString.ofStr hk hlook, hkres⟩
        | arr items =>
          obtain ⟨it, hit, hires⟩ := firstHit_exists hkres
          cases it with
          | str s =>
            exact ⟨(doiFirstMatchStr_props hires).2, s,
              LDKeyString.ofArr hk hlook hit, hires⟩
          | null => cases hires
          | bool b => cases hires
          | num k2 => cases hires
          | arr xs2 => cases hires
          | obj kvs2 => cases hires
        | null => cases hkres
        | bool b => cases hkres
        | num k2 => cases hkres
        | obj kvs2 => cases hkres
    | arr xs =>
      have hsz' : ∀ y ∈ xs, sizeOf y ≤ n := by
        intro y hy
        have h1 : sizeOf y < sizeOf (JsonVal.arr xs) := by
          have h2 := List.sizeOf_lt_of_mem hy
          simp only [JsonVal.arr.sizeOf_spec]
          omega
        omega
      rw [show extractDOIFromLD (JsonVal.arr xs) = extractDOIFromLDList xs from rfl] at h
      have hlist :
          ∀ (ys : List JsonVal), (∀ y ∈ ys, sizeOf y ≤ n) →
            extractDOIFromLDList ys = some r →
            ∃ y ∈ ys, matchesDOIPattern r = true ∧
              ∃ s, LDKeyString y s ∧ doiFirstMatchStr (stripLeadingDoi s) = some r := by
        intro ys
        induction ys with
        | nil => intro _ hh; simp [extractDOIFromLDList] at hh
        | cons y ys ihy =>
          intro hall hh
          rw [extractDOIFromLDList] at hh
          cases hy : extractDOIFromLD y with
          | some r0 =>
            rw [hy] at hh
            cases hh
            obtain ⟨hm, s, hks, hds⟩ := ih y r (hall y (List.mem_cons_self y ys)) hy
            exact ⟨y, List.mem_cons_self y ys, hm, s, hks, hds⟩
          | none =>
            rw [hy] at hh
            obtain ⟨y', hy', hgood⟩ := ihy (fun z hz => hall z (List.mem_cons_of_mem y hz)) hh
            exact ⟨y', List.mem_cons_of_mem y hy', hgood⟩
      obtain ⟨y, hy, hm, s, hks, hds⟩ := hlist xs hsz' h
      exact ⟨hm, s, LDKeyString.inArr hy hks, hds⟩

end Content

/-- Claim C10: the JSON-LD walker `extractDOIFromLD` terminates on every
finite value — it is definable as a total function recursing only on
structurally smaller sub-values — and whenever it returns a string, that
string matches the DOI syntax pattern and is the `DOI_REGEX` match of
the prefix-stripped form of a string found under one of the fixed key
names `doi`, `DOI`, `@id`, `identifier`, `sameAs`. -/
theorem c10_ld_walker (v : Content.JsonVal) (r : String)
    (h : Content.extractDOIFromLD v = some r) :
    Content.matchesDOIPattern r = true ∧
      ∃ s, Content.LDKeyString v s ∧
        Content.doiFirstMatchStr (Content.stripLeadingDoi s) = some r :=
  Content.extractLD_good (sizeOf v) v r (le_refl _) h

/-- C10 witness value: a schema.org object with a `doi:`-prefixed DOI
nested in an array. -/
def c10val : Content.JsonVal :=
  Content.JsonVal.arr
    [ Content.JsonVal.str "not a doi"
    , Content.JsonVal.obj
        [ ("@type", Content.JsonVal.str "ScholarlyArticle")
        , ("doi", Content.JsonVal.str "doi:10.1234/abc") ] ]

/-- Witness for C10: the walker's hit on the concrete value is pattern
conformant and traceable to the `doi` key. -/
theorem c10_ld_walker_witness :
    Content.matchesDOIPattern "10.1234/abc" = true ∧
      ∃ s, Content.LDKeyString c10val s ∧
        Content.doiFirstMatchStr (Content.stripLeadingDoi s) = some "10.1234/abc" :=
  c10_ld_walker c10val "10.1234/abc" (by decide)

namespace BackgroundSW

theorem parseAttrValue_no_quote {l : List Char} {r : List Char × List Char}
    (h : parseAttrValue l = some r) : ∀ c ∈ r.1, Content.isQuote c = false := by
  simp only [parseAttrValue] at h
  split at h
  next l2 heq =>
    split at h
    next q l4 heq2 =>
      split at h
      next hq =>
        split at h
        next q2 rest2 heq3 =>
          split at h
          next hemp => cases h
          next hemp =>
            cases h
            intro c hc
            have := List.mem_takeWhile_imp hc
            simpa using this
        next heq3 => cases h
      next hq => cases h
    next heq2 => cases h
  next heq => cases h

theorem attrScanDesc_no_quote {l attrN : List Char} :
    ∀ {n : Nat} {r : List Char × List Char}, attrScanDesc l attrN n = some r →
      ∀ c ∈ r.1, Content.isQuote c = false := by
  intro n
  induction n with
  | zero => intro r h; simp [attrScanDesc] at h
  | succ k ih =>
    intro r h
    rw [attrScanDesc] at h
    split at h
    next hci =>
      split at h
      next r0 hp =>
        cases h
        exact parseAttrValue_no_quote hp
      next hp => exact ih h
    next hci => exact ih h

theorem locHrefHere_none {l : List Char} (hl : ∀ c ∈ l, Content.isQuote c = false) :
    locHrefHere l = none := by
  unfold locHrefHere
  split
  next hstart =>
    dsimp only
    split
    next l2 heq =>
      split
      next q l4 heq2 =>
        have hq : q ∈ l := by
          have h1 : q ∈ l2.dropWhile Char.isWhitespace := by
            rw [heq2]; exact List.mem_cons_self q l4
          have h2 : q ∈ l2 := (List.dropWhile_sublist _).mem h1
          have h3 : q ∈ (l.drop 13).dropWhile Char.isWhitespace := by
            rw [heq]; exact List.mem_cons_of_mem _ h2
          have h4 : q ∈ l.drop 13 := (List.dropWhile_sublist _).mem h3
          exact (List.drop_sublist 13 l).mem h4
        rw [if_neg]
        intro hqt
        rw [hl q hq] at hqt
        cases hqt
      next heq2 => rfl
    next heq => rfl
  next hstart => rfl

theorem locHrefPdf_none {v : List Char} (hv : ∀ c ∈ v, Content.isQuote c = false) :
    locHrefPdf v = none := by
  unfold locHrefPdf
  induction v with
  | nil => rfl
  | cons c cs ih =>
    rw [Content.scanPos]
    rw [locHrefHere_none hv]
    exact ih (fun c' hc' => hv c' (List.mem_cons_of_mem c hc'))

/-- The button tier of the regex variant can never produce a reference:
the captured onclick value contains no quote character (the outer
pattern's `[^"']+` group excludes both), while the inner
`location.href\s*=\s*['"]…` pattern requires one. -/
theorem buttonTierGo_none : ∀ (fuel : Nat) (l : List Char), buttonTierGo fuel l = none := by
  intro fuel
  induction fuel with
  | zero => intro l; cases l <;> rfl
  | succ f ih =>
    intro l
    cases l with
    | nil => rfl
    | cons c cs =>
      rw [buttonTierGo]
      split
      next hci =>
        dsimp only
        cases hscan : attrScanDesc ((c :: cs).drop 7) "onclick".data
            (((c :: cs).drop 7).takeWhile (fun x => x ≠ '>')).length with
        | some r =>
          simp only [hscan]
          rw [locHrefPdf_none (attrScanDesc_no_quote hscan)]
          exact ih r.2
        | none =>
          simp only [hscan]
          exact ih cs
      next hci => exact ih cs

/-- `buttonTierGo_none` on strings. -/
theorem buttonPdf_none (html : String) : buttonPdf html = none := by
  unfold buttonPdf
  rw [buttonTierGo_none]
  rfl

end BackgroundSW

namespace Background

theorem stripFragment_append {a b : List Char}
    (ha : ∀ c ∈ a, c ≠ '#') (hb : ∀ c ∈ b, isLineTerm c = false) :
    stripFragment (a ++ '#' :: b) = a := by
  induction a with
  | nil =>
    rw [List.nil_append, stripFragment]
    have hany : b.any isLineTerm = false := by
      cases h : b.any isLineTerm
      · rfl
      · obtain ⟨c, hc, hct⟩ := List.any_eq_true.mp h
        rw [hb c hc] at hct
        cases hct
    simp [hany]
  | cons c a ih =>
    have hc : (c == '#') = false := by
      simpa using ha c (List.mem_cons_self c a)
    rw [List.cons_append, stripFragment]
    rw [ih (fun c' hc' => ha c' (List.mem_cons_of_mem c hc'))]
    simp [hc]

theorem decodeAmp_cons_ne {c : Char} (hc : c ≠ '&') (l : List Char) :
    decodeAmp (c :: l) = c :: decodeAmp l := by
  rw [decodeAmp.eq_def]
  split
  · rename_i heq
    rw [List.cons_eq_cons] at heq
    exact absurd heq.1 hc
  · rename_i c' rest heq
    rw [List.cons_eq_cons] at heq
    rw [heq.1, heq.2]
  · rename_i heq
    simp at heq

theorem decodeAmp_append {a b : List Char} (ha : ∀ c ∈ a, c ≠ '&') :
    decodeAmp (a ++ '&' :: 'a' :: 'm' :: 'p' :: ';' :: b) =
      a ++ '&' :: decodeAmp b := by
  induction a with
  | nil => rw [List.nil_append]; rfl
  | cons c a ih =>
    rw [List.cons_append, decodeAmp_cons_ne (ha c (List.mem_cons_self c a)),
      ih (fun c' hc' => ha c' (List.mem_cons_of_mem c hc'))]
    rfl

end Background

namespace BackgroundSW

/-- On an input untouched by trimming, entity decoding and fragment
stripping, `normalizeUrl` performs exactly the four-way base resolution
of the specification. -/
theorem normalizeUrl_clean (l : List Char) (m : String)
    (htrim : Background.trimL l = l) (hdec : Background.decodeAmp l = l)
    (hfrag : Background.stripFragment l = l) (hne : l ≠ []) :
    (Content.startsL l "//".data = true →
        normalizeUrl (String.mk l) m = some ("https:" ++ String.mk l)) ∧
    (Content.startsL l "//".data = false → Content.startsL l "/".data = true →
        normalizeUrl (String.mk l) m = some (m ++ String.mk l)) ∧
    (Content.startsL l "//".data = false → Content.startsL l "/".data = false →
      Content.startsL l "http".data = true →
        normalizeUrl (String.mk l) m = some (String.mk l)) ∧
    (Content.startsL l "//".data = false → Content.startsL l "/".data = false →
      Content.startsL l "http".data = false →
        normalizeUrl (String.mk l) m = some (m ++ "/" ++ String.mk l)) := by
  have h0 : ¬(String.mk l = "") := by
    intro h
    apply hne
    have : (String.mk l).data = ("" : String).data := by rw [h]
    simpa using this
  have hdata : (String.mk l).data = l := rfl
  refine ⟨?_, ?_, ?_, ?_⟩
  · intro h1
    unfold normalizeUrl
    rw [if_neg h0]
    simp [hdata, htrim, hdec, hfrag, h1]
  · intro h1 h2
    unfold normalizeUrl
    rw [if_neg h0]
    simp [hdata, htrim, hdec, hfrag, h1, h2]
  · intro h1 h2 h3
    unfold normalizeUrl
    rw [if_neg h0]
    simp [hdata, htrim, hdec, hfrag, h1, h2, h3]
  · intro h1 h2 h3
    unfold normalizeUrl
    rw [if_neg h0]
    simp [hdata, htrim, hdec, hfrag, h1, h2, h3]

end BackgroundSW

/-- C4 counterexample HTML: a script block whose absolute URL carries a
fragment and an HTML ampersand entity. -/
def c4html : String := "<script>u=https://h/x.pdf#a&amp;b</script>"

/-- Claim C4 counterexample: the reference extracted at the script tier
is used exactly as matched — fragment and `&amp;` entity included — and
differs from its normalized form, so not every tier normalizes before
use. -/
theorem c4_counterexample :
    BackgroundSW.findPDFUrlBody c4html "https://sci-hub.vg" =
        some "https://h/x.pdf#a&amp;b" ∧
      BackgroundSW.normalizeUrl "https://h/x.pdf#a&amp;b" "https://sci-hub.vg" =
        some "https://h/x.pdf" ∧
      ("https://h/x.pdf#a&amp;b" : String) ≠ "https://h/x.pdf" := by
  exact ⟨by decide, by decide, by decide⟩

/-- Claim C4 (amended): in the regex variant, references extracted at the
iframe, embed (all three patterns), object and last-resort tiers are
passed through `normalizeUrl` before use; the button tier can never
produce a reference (its captured onclick value cannot contain the quote
its inner pattern requires); the inline-script tier returns its matched
absolute URL unchanged, without fragment stripping or entity decoding.
`normalizeUrl` itself strips the fragment, decodes `&amp;`, prefixes
protocol-relative references with `https:`, root-relative references
with the mirror base, passes absolute references through, and prefixes
anything else with the mirror base and a slash; the DOM variant's
`normalizeUrl` performs no entity decoding. -/
theorem c4_amended :
    (∀ (html m r : String), BackgroundSW.iframeSrc html = some r →
      BackgroundSW.findPDFUrlBody html m = BackgroundSW.normalizeUrl r m) ∧
    (∀ (html m r : String), BackgroundSW.iframeSrc html = none →
      BackgroundSW.embedPdfSrc html = some r →
      BackgroundSW.findPDFUrlBody html m = BackgroundSW.normalizeUrl r m) ∧
    (∀ (html m r : String), BackgroundSW.iframeSrc html = none →
      BackgroundSW.embedPdfSrc html = none → BackgroundSW.embedPdfSrc2 html = some r →
      BackgroundSW.findPDFUrlBody html m = BackgroundSW.normalizeUrl r m) ∧
    (∀ (html m r : String), BackgroundSW.iframeSrc html = none →
      BackgroundSW.embedPdfSrc html = none → BackgroundSW.embedPdfSrc2 html = none →
      BackgroundSW.embedAnySrc html = some r →
      BackgroundSW.findPDFUrlBody html m = BackgroundSW.normalizeUrl r m) ∧
    (∀ (html m r : String), BackgroundSW.iframeSrc html = none →
      BackgroundSW.embedPdfSrc html = none → BackgroundSW.embedPdfSrc2 html = none →
      BackgroundSW.embedAnySrc html = none → BackgroundSW.objectTier html = some r →
      BackgroundSW.findPDFUrlBody html m = BackgroundSW.normalizeUrl r m) ∧
    (∀ html : String, BackgroundSW.buttonPdf html = none) ∧
    (∀ (html m u : String), BackgroundSW.iframeSrc html = none →
      BackgroundSW.embedPdfSrc html = none → BackgroundSW.embedPdfSrc2 html = none →
      BackgroundSW.embedAnySrc html = none → BackgroundSW.objectTier html = none →
      BackgroundSW.scriptPdf html = some u →
      BackgroundSW.findPDFUrlBody html m = some u) ∧
    (∀ (html m r : String), BackgroundSW.iframeSrc html = none →
      BackgroundSW.embedPdfSrc html = none → BackgroundSW.embedPdfSrc2 html = none →
      BackgroundSW.embedAnySrc html = none → BackgroundSW.objectTier html = none →
      BackgroundSW.scriptPdf html = none → BackgroundSW.anyPdfAttr html = some r →
      BackgroundSW.findPDFUrlBody html m = BackgroundSW.normalizeUrl r m) ∧
    (∀ (l : List Char) (m : String),
      Background.trimL l = l → Background.decodeAmp l = l →
      Background.stripFragment l = l → l ≠ [] →
      (Content.startsL l "//".data = true →
          BackgroundSW.normalizeUrl (String.mk l) m = some ("https:" ++ String.mk l)) ∧
      (Content.startsL l "//".data = false → Content.startsL l "/".data = true →
          BackgroundSW.normalizeUrl (String.mk l) m = some (m ++ String.mk l)) ∧
      (Content.startsL l "//".data = false → Content.startsL l "/".data = false →
        Content.startsL l "http".data = true →
          BackgroundSW.normalizeUrl (String.mk l) m = some (String.mk l)) ∧
      (Content.startsL l "//".data = false → Content.startsL l "/".data = false →
        Content.startsL l "http".data = false →
          BackgroundSW.normalizeUrl (String.mk l) m = some (m ++ "/" ++ String.mk l))) ∧
    (∀ (a b : List Char), (∀ c ∈ a, c ≠ '#') → (∀ c ∈ b, Background.isLineTerm c = false) →
      Background.stripFragment (a ++ '#' :: b) = a) ∧
    (∀ (a b : List Char), (∀ c ∈ a, c ≠ '&') →
      Background.decodeAmp (a ++ '&' :: 'a' :: 'm' :: 'p' :: ';' :: b) =
        a ++ '&' :: Background.decodeAmp b) ∧
    (BackgroundDOM.normalizeUrl "/a&amp;b" "https://sci-hub.vg" =
        some "https://sci-hub.vg/a&amp;b" ∧
      BackgroundSW.normalizeUrl "/a&amp;b" "https://sci-hub.vg" =
        some "https://sci-hub.vg/a&b") := by
  refine ⟨?_, ?_, ?_, ?_, ?_, BackgroundSW.buttonPdf_none, ?_, ?_, ?_, ?_, ?_,
    by decide, by decide⟩
  · intro html m r h1
    simp only [BackgroundSW.findPDFUrlBody, h1]
  · intro html m r h1 h2
    simp only [BackgroundSW.findPDFUrlBody, h1, h2]
  · intro html m r h1 h2 h3
    simp only [BackgroundSW.findPDFUrlBody, h1, h2, h3]
  · intro html m r h1 h2 h3 h4
    simp only [BackgroundSW.findPDFUrlBody, h1, h2, h3, h4]
  · intro html m r h1 h2 h3 h4 h5
    simp only [BackgroundSW.findPDFUrlBody, h1, h2, h3, h4, h5]
  · intro html m u h1 h2 h3 h4 h5 hs
    simp only [BackgroundSW.findPDFUrlBody, h1, h2, h3, h4, h5,
      BackgroundSW.buttonPdf_none, hs]
  · intro html m r h1 h2 h3 h4 h5 hs h6
    simp only [BackgroundSW.findPDFUrlBody, h1, h2, h3, h4, h5,
      BackgroundSW.buttonPdf_none, hs, h6]
  · intro l m htrim hdec hfrag hne
    exact BackgroundSW.normalizeUrl_clean l m htrim hdec hfrag hne
  · intro a b ha hb
    exact Background.stripFragment_append ha hb
  · intro a b ha
    exact Background.decodeAmp_append ha

/-- Witness for C4 (amended): a concrete iframe reference is resolved via
`normalizeUrl` (root-relative, so the mirror base is prefixed and the
fragment stripped). -/
theorem c4_amended_witness :
    BackgroundSW.findPDFUrlBody "<iframe src=\"/dl/x.pdf#page=2\"></iframe>"
        "https://sci-hub.vg" =
      BackgroundSW.normalizeUrl "/dl/x.pdf#page=2" "https://sci-hub.vg" :=
  c4_amended.1 "<iframe src=\"/dl/x.pdf#page=2\"></iframe>" "https://sci-hub.vg"
    "/dl/x.pdf#page=2" (by decide)
